import Mathlib

/-!
Shallow embedding of the Order Block analytics engine of
`webapp/charts/orderblock_analytics.py` (class `OrderBlockAnalyzer`).

Prices are modelled as rationals, timestamps as integers; a pandas
DataFrame of candles becomes a `List Candle` indexed positionally, and a
pandas Series becomes a `List ℚ` / `List Bool` aligned by position.  The
Python methods are translated one-to-one:

* `calculate_atr`       — true range with the NaN-skipping first row,
  then `ewm(alpha = 1/period, adjust = False).mean()`, whose recurrence is
  `y[0] = x[0]`, `y[i] = (1-α)·y[i-1] + α·x[i]`.
* `detect_swing_points` — fractal extrema over the closed window
  `[i-w, i+w]` for `w ≤ i < n-w`, tie-inclusive equality test.
* `detect_displacement` — `high-low ≥ multiplier · ATR` per index.
* `detect_bos`          — forward scan holding the last swing high/low
  whose index is `≤ i` (the source's pointer-advancing while loops become
  `advance_swings`), then strict comparison against the close.
* `identify_order_blocks` — for each BOS index, the last displacement
  index strictly before it (`displacement[:bos_idx]` slices positionally,
  excluding `bos_idx`), then the last opposite-coloured candle strictly
  before that, then the zone/bos-level/range fields.
* `track_mitigation`    — per block, replay candles with timestamp
  strictly greater than `created_ts_ms`; touch promotes `fresh` to
  `touched`, a close through the zone sets `invalid` and breaks.
* `analyze`             — the length guard followed by the pipeline; the
  source contains no raise statement, so the embedding is a total
  function.
-/

/-- One OHLCV candle (`timestamp, open, high, low, close, volume`). -/
structure Candle where
  ts : Int
  open_ : ℚ
  high : ℚ
  low : ℚ
  close : ℚ
  volume : ℚ
  deriving DecidableEq, Repr

instance : Inhabited Candle := ⟨⟨0, 0, 0, 0, 0, 0⟩⟩

/-- Zone construction mode (`zone_mode` of the analyzer). -/
inductive ZoneMode
  | conservative
  | aggressive
  deriving DecidableEq, Repr

/-- Lifecycle status of an Order Block (`fresh`, `touched`, `invalid`). -/
inductive Status
  | fresh
  | touched
  | invalid
  deriving DecidableEq, Repr

/-- Direction of an Order Block. -/
inductive Direction
  | bullish
  | bearish
  deriving DecidableEq, Repr

/-- Order Block record, with the fields emitted by the source. -/
structure OrderBlock where
  direction : Direction
  created_ts_ms : Int
  valid_from_ts_ms : Int
  valid_to_ts_ms : Option Int
  price_low : ℚ
  price_high : ℚ
  atr14 : ℚ
  bos_level : ℚ
  displacement_range : ℚ
  status : Status
  deriving DecidableEq, Repr

instance : Inhabited OrderBlock :=
  ⟨⟨.bullish, 0, 0, none, 0, 0, 0, 0, 0, .fresh⟩⟩

/-- Analyzer configuration (`OrderBlockAnalyzer.__init__` defaults). -/
structure Config where
  atr_period : Nat := 14
  atr_multiplier : ℚ := 6/5
  swing_window : Nat := 3
  zone_mode : ZoneMode := .conservative
  min_candles : Nat := 200
  deriving Repr

/-- Default analyzer configuration. -/
def defaultConfig : Config := {}

/-- Positional access `df.iloc[i]` (out-of-range reads give the zero candle;
all in-range uses are guarded by index bounds). -/
def candleAt (df : List Candle) (i : Nat) : Candle := df.getD i default

/-- True-range recursion carrying `prev_close = close.shift(1)`: the first
row has `prev_close = NaN`, and the row-wise `max` of
`[high-low, NaN, NaN]` skips NaN, leaving `high - low`. -/
def true_range_aux : Option ℚ → List Candle → List ℚ
  | _, [] => []
  | pc, c :: rest =>
    (match pc with
     | none => c.high - c.low
     | some p => max (c.high - c.low) (max |c.high - p| |c.low - p|)) ::
    true_range_aux (some c.close) rest

/-- True Range series of `calculate_atr`. -/
def true_range (df : List Candle) : List ℚ := true_range_aux none df

/-- Recurrence of `Series.ewm(alpha, adjust=False).mean()` after the seed:
`y' = (1-α)·y + α·x`. -/
def ewm_aux (α : ℚ) : ℚ → List ℚ → List ℚ
  | _, [] => []
  | y, x :: xs =>
    let y' := (1 - α) * y + α * x
    y' :: ewm_aux α y' xs

/-- `Series.ewm(alpha, adjust=False).mean()`: seeded by the first value. -/
def ewm_mean (α : ℚ) : List ℚ → List ℚ
  | [] => []
  | x :: xs => x :: ewm_aux α x xs

/-- `OrderBlockAnalyzer.calculate_atr`: Wilder smoothing of the true range
with `alpha = 1/period`. -/
def calculate_atr (period : Nat) (df : List Candle) : List ℚ :=
  ewm_mean (1 / (period : ℚ)) (true_range df)

/-- Modelled from the spec (§4.1), for the refinement claim: `TR[0] =
high[0]-low[0]`; for `i>0`, `TR[i] = max(high-low, |high-prevclose|,
|low-prevclose|)`. -/
def tr_ref_aux : Candle → List Candle → List ℚ
  | _, [] => []
  | prev, c :: rest =>
    max (c.high - c.low) (max |c.high - prev.close| |c.low - prev.close|) ::
    tr_ref_aux c rest

/-- Modelled from the spec (§4.1): the reference True Range series. -/
def tr_ref : List Candle → List ℚ
  | [] => []
  | c :: rest => (c.high - c.low) :: tr_ref_aux c rest

/-- Modelled from the spec (§4.1): `ATR[i] = ATR[i-1] + α·(TR[i]-ATR[i-1])`. -/
def atr_ref_aux (α : ℚ) : ℚ → List ℚ → List ℚ
  | _, [] => []
  | y, x :: xs =>
    let y' := y + α * (x - y)
    y' :: atr_ref_aux α y' xs

/-- Modelled from the spec (§4.1): the reference single-pass ATR loop,
seeded with `ATR[0] = TR[0]`. -/
def atr_ref (period : Nat) (df : List Candle) : List ℚ :=
  match tr_ref df with
  | [] => []
  | t :: ts => t :: atr_ref_aux (1 / (period : ℚ)) t ts

/-- Swing point record produced by `detect_swing_points`. -/
structure SwingPoint where
  index : Nat
  level : ℚ
  timestamp : Int
  deriving DecidableEq, Repr

/-- Values of the closed window `[i-w, i+w]` of a candle field. -/
def window_vals (f : Candle → ℚ) (df : List Candle) (i w : Nat) : List ℚ :=
  (List.range' (i - w) (2 * w + 1)).map (fun j => f (candleAt df j))

/-- Maximum of a nonempty list of rationals (`Series.max`). -/
def list_max : List ℚ → ℚ
  | [] => 0
  | x :: xs => xs.foldl max x

/-- Minimum of a nonempty list of rationals (`Series.min`). -/
def list_min : List ℚ → ℚ
  | [] => 0
  | x :: xs => xs.foldl min x

/-- Swing highs of `detect_swing_points`: for `w ≤ i < n-w`, candle `i` is a
swing high iff `high[i]` equals the window maximum (tie-inclusive). -/
def swing_highs_list (w : Nat) (df : List Candle) : List SwingPoint :=
  (List.range df.length).filterMap fun i =>
    if w ≤ i ∧ i + w < df.length ∧
        (candleAt df i).high = list_max (window_vals Candle.high df i w)
    then some ⟨i, (candleAt df i).high, (candleAt df i).ts⟩ else none

/-- Swing lows of `detect_swing_points`. -/
def swing_lows_list (w : Nat) (df : List Candle) : List SwingPoint :=
  (List.range df.length).filterMap fun i =>
    if w ≤ i ∧ i + w < df.length ∧
        (candleAt df i).low = list_min (window_vals Candle.low df i w)
    then some ⟨i, (candleAt df i).low, (candleAt df i).ts⟩ else none

/-- `OrderBlockAnalyzer.detect_swing_points`. -/
def detect_swing_points (w : Nat) (df : List Candle) :
    List SwingPoint × List SwingPoint :=
  (swing_highs_list w df, swing_lows_list w df)

/-- `OrderBlockAnalyzer.detect_displacement`:
`high - low >= multiplier * atr` per index. -/
def detect_displacement (multiplier : ℚ) (df : List Candle) (atr : List ℚ) :
    List Bool :=
  (List.range df.length).map fun i =>
    decide (multiplier * atr.getD i 0 ≤ (candleAt df i).high - (candleAt df i).low)

/-- The source's while loops advancing past all swing points whose `index ≤ i`,
keeping the level of the last one passed. -/
def advance_swings : Option ℚ → List SwingPoint → Nat → Option ℚ × List SwingPoint
  | last, [], _ => (last, [])
  | last, s :: rest, i =>
    if s.index ≤ i then advance_swings (some s.level) rest i else (last, s :: rest)

/-- Main loop of `detect_bos` over the remaining indices, carrying the last
swing high/low levels and the unconsumed swing lists; emits per index the pair
(bullish BOS flag, bearish BOS flag). -/
def bos_aux (df : List Candle) :
    List Nat → Option ℚ → List SwingPoint → Option ℚ → List SwingPoint →
    List (Bool × Bool)
  | [], _, _, _, _ => []
  | i :: is, lastH, restH, lastL, restL =>
    let ph := advance_swings lastH restH i
    let pl := advance_swings lastL restL i
    ((match ph.1 with
      | none => false
      | some v => decide (v < (candleAt df i).close)),
     (match pl.1 with
      | none => false
      | some v => decide ((candleAt df i).close < v))) ::
    bos_aux df is ph.1 ph.2 pl.1 pl.2

/-- `OrderBlockAnalyzer.detect_bos`. -/
def detect_bos (df : List Candle) (shs sls : List SwingPoint) :
    List (Bool × Bool) :=
  bos_aux df (List.range df.length) none shs none sls

/-- Bullish BOS flag at index `i`, with the swing points the pipeline uses. -/
def bos_bullish_flag (w : Nat) (df : List Candle) (i : Nat) : Bool :=
  ((detect_bos df (swing_highs_list w df) (swing_lows_list w df)).getD
    i (false, false)).1

/-- Bearish BOS flag at index `i`, with the swing points the pipeline uses. -/
def bos_bearish_flag (w : Nat) (df : List Candle) (i : Nat) : Bool :=
  ((detect_bos df (swing_highs_list w df) (swing_lows_list w df)).getD
    i (false, false)).2

/-- Largest index `j < b` with `p j` (`series[:b][mask].index[-1]` of the
source, `none` when the masked slice is empty). -/
def last_index_before (p : Nat → Bool) : Nat → Option Nat
  | 0 => none
  | b + 1 => if p b then some b else last_index_before p b

/-- Bearish candle test `close < open` at index `i`. -/
def is_bearish_at (df : List Candle) (i : Nat) : Bool :=
  decide ((candleAt df i).close < (candleAt df i).open_)

/-- Bullish candle test `close > open` at index `i`. -/
def is_bullish_at (df : List Candle) (i : Nat) : Bool :=
  decide ((candleAt df i).open_ < (candleAt df i).close)

/-- Zone bounds of an origin candle: conservative `[min(open,close),
max(open,close)]`, aggressive `[low, high]`. -/
def zone_of (mode : ZoneMode) (c : Candle) : ℚ × ℚ :=
  match mode with
  | .conservative => (min c.open_ c.close, max c.open_ c.close)
  | .aggressive => (c.low, c.high)

/-- BOS level for a bullish block: level of the last swing high with
`index < b`, falling back to `close[b]` when none precedes. -/
def bos_level_bullish (df : List Candle) (shs : List SwingPoint) (b : Nat) : ℚ :=
  match shs.reverse.find? (fun s => decide (s.index < b)) with
  | some s => s.level
  | none => (candleAt df b).close

/-- BOS level for a bearish block: level of the last swing low with
`index < b`, falling back to `close[b]` when none precedes. -/
def bos_level_bearish (df : List Candle) (sls : List SwingPoint) (b : Nat) : ℚ :=
  match sls.reverse.find? (fun s => decide (s.index < b)) with
  | some s => s.level
  | none => (candleAt df b).close

/-- Bullish Order Block candidate for a bullish BOS at index `b`: the last
displacement index `d` strictly before `b`, then the last bearish candle `o`
strictly before `d`; `none` when either scan is empty. -/
def mk_bullish_ob (mode : ZoneMode) (df : List Candle) (disp : List Bool)
    (atr : List ℚ) (shs : List SwingPoint) (b : Nat) : Option OrderBlock :=
  match last_index_before (fun i => disp.getD i false) b with
  | none => none
  | some d =>
    match last_index_before (is_bearish_at df) d with
    | none => none
    | some o =>
      let c := candleAt df o
      let z := zone_of mode c
      some { direction := .bullish
             created_ts_ms := c.ts
             valid_from_ts_ms := c.ts
             valid_to_ts_ms := none
             price_low := z.1
             price_high := z.2
             atr14 := atr.getD o 0
             bos_level := bos_level_bullish df shs b
             displacement_range := (candleAt df d).high - (candleAt df d).low
             status := .fresh }

/-- Bearish Order Block candidate for a bearish BOS at index `b` (mirror of
`mk_bullish_ob`, with a bullish origin candle and swing-low BOS level). -/
def mk_bearish_ob (mode : ZoneMode) (df : List Candle) (disp : List Bool)
    (atr : List ℚ) (sls : List SwingPoint) (b : Nat) : Option OrderBlock :=
  match last_index_before (fun i => disp.getD i false) b with
  | none => none
  | some d =>
    match last_index_before (is_bullish_at df) d with
    | none => none
    | some o =>
      let c := candleAt df o
      let z := zone_of mode c
      some { direction := .bearish
             created_ts_ms := c.ts
             valid_from_ts_ms := c.ts
             valid_to_ts_ms := none
             price_low := z.1
             price_high := z.2
             atr14 := atr.getD o 0
             bos_level := bos_level_bearish df sls b
             displacement_range := (candleAt df d).high - (candleAt df d).low
             status := .fresh }

/-- `OrderBlockAnalyzer.identify_order_blocks`: all bullish blocks (one per
bullish BOS index, ascending) followed by all bearish blocks. -/
def identify_order_blocks (mode : ZoneMode) (df : List Candle)
    (disp : List Bool) (bosB bosS : List Bool) (atr : List ℚ)
    (shs sls : List SwingPoint) : List OrderBlock :=
  ((List.range df.length).filter (fun i => bosB.getD i false)).filterMap
      (mk_bullish_ob mode df disp atr shs)
  ++ ((List.range df.length).filter (fun i => bosS.getD i false)).filterMap
      (mk_bearish_ob mode df disp atr sls)

/-- One iteration of the mitigation loop on one candle: the touch check
(promoting `fresh` to `touched`), then the close-through check; the Bool is
the source's `break` (set exactly when the block is invalidated). -/
def step_ob (ob : OrderBlock) (c : Candle) : OrderBlock × Bool :=
  let ob1 :=
    if c.low ≤ ob.price_high ∧ ob.price_low ≤ c.high then
      (if ob.status = Status.fresh then { ob with status := Status.touched } else ob)
    else ob
  match ob.direction with
  | .bullish =>
    if c.close < ob.price_low then
      ({ ob1 with status := Status.invalid, valid_to_ts_ms := some c.ts }, true)
    else (ob1, false)
  | .bearish =>
    if ob.price_high < c.close then
      ({ ob1 with status := Status.invalid, valid_to_ts_ms := some c.ts }, true)
    else (ob1, false)

/-- Mitigation scan of one block over its future candles, stopping at the
first invalidating candle. -/
def scan_ob : OrderBlock → List Candle → OrderBlock
  | ob, [] => ob
  | ob, c :: rest =>
    let r := step_ob ob c
    if r.2 then r.1 else scan_ob r.1 rest

/-- Candles with timestamp strictly after `created`
(`df[df['timestamp'] > created_ts]`). -/
def future_candles (df : List Candle) (created : Int) : List Candle :=
  df.filter (fun c => created < c.ts)

/-- `OrderBlockAnalyzer.track_mitigation`. -/
def track_mitigation (obs : List OrderBlock) (df : List Candle) :
    List OrderBlock :=
  obs.map fun ob => scan_ob ob (future_candles df ob.created_ts_ms)

/-- Close-through test used by the mitigation loop: `close < price_low` for a
bullish block, `close > price_high` for a bearish one. -/
def invalidated_by (ob : OrderBlock) (c : Candle) : Bool :=
  match ob.direction with
  | .bullish => decide (c.close < ob.price_low)
  | .bearish => decide (ob.price_high < c.close)

/-- `OrderBlockAnalyzer.analyze`: the emptiness/minimum-length guard, then
the five pipeline stages.  The source body contains no raise statement, so
the embedding is a total function into `List OrderBlock`. -/
def analyze (cfg : Config) (df : List Candle) : List OrderBlock :=
  if df.isEmpty ∨ df.length < cfg.min_candles then []
  else
    track_mitigation
      (identify_order_blocks cfg.zone_mode df
        (detect_displacement cfg.atr_multiplier df (calculate_atr cfg.atr_period df))
        ((detect_bos df (swing_highs_list cfg.swing_window df)
            (swing_lows_list cfg.swing_window df)).map Prod.fst)
        ((detect_bos df (swing_highs_list cfg.swing_window df)
            (swing_lows_list cfg.swing_window df)).map Prod.snd)
        (calculate_atr cfg.atr_period df)
        (swing_highs_list cfg.swing_window df) (swing_lows_list cfg.swing_window df))
      df

/-- Numeric rank of a status, ordering `fresh < touched < invalid`. -/
def status_rank : Status → Nat
  | .fresh => 0
  | .touched => 1
  | .invalid => 2

/-- Statuses a block takes during the mitigation scan, one entry per
processed candle (the scan stops right after an invalidation). -/
def status_trace : OrderBlock → List Candle → List Status
  | _, [] => []
  | ob, c :: rest =>
    let r := step_ob ob c
    if r.2 then [r.1.status] else r.1.status :: status_trace r.1 rest

/-- Candle timestamps strictly increasing along the batch. -/
def ts_strict_mono (df : List Candle) : Prop :=
  List.Chain' (fun a b => a.ts < b.ts) df

/-- Output list ordered by `created_ts_ms` ascending. -/
def sorted_by_created (obs : List OrderBlock) : Prop :=
  List.Chain' (fun a b => a.created_ts_ms ≤ b.created_ts_ms) obs

/-- Every candle has `low ≤ min(open, close)` and `max(open, close) ≤ high`. -/
def candles_well_formed (df : List Candle) : Prop :=
  ∀ c ∈ df, c.low ≤ min c.open_ c.close ∧ max c.open_ c.close ≤ c.high

/-- Every candle has `low ≤ close ≤ high`. -/
def closes_in_range (df : List Candle) : Prop :=
  ∀ c ∈ df, c.low ≤ c.close ∧ c.close ≤ c.high

/-- Every candle has `low ≤ high`. -/
def highs_above_lows (df : List Candle) : Prop :=
  ∀ c ∈ df, c.low ≤ c.high

/-- Shorthand for building a test candle with zero volume. -/
def mkCandle (t : Int) (o h l c : ℚ) : Candle := ⟨t, o, h, l, c, 0⟩

/-- Small configuration used for concrete evaluations: window 1, zero
displacement threshold, minimum batch length 1. -/
def smallCfg : Config :=
  { atr_period := 14, atr_multiplier := 0, swing_window := 1,
    zone_mode := .conservative, min_candles := 1 }

/-- Concrete eight-candle batch: a bearish BOS at index 3 (origin candle 0)
and a bullish BOS at index 7 (origin candle 3). -/
def demoDf : List Candle :=
  [ mkCandle 0 10 11 10 11,
    mkCandle 1 10 10 5 9,
    mkCandle 2 9 (19/2) 6 9,
    mkCandle 3 6 6 4 (9/2),
    mkCandle 4 (9/2) 5 (7/2) 5,
    mkCandle 5 5 8 5 (15/2),
    mkCandle 6 (15/2) (39/5) 7 (36/5),
    mkCandle 7 (36/5) 9 (36/5) 9 ]

/-- The same batch with candle 4 given the duplicate timestamp 3
(non-monotonic input). -/
def dupDf : List Candle :=
  [ mkCandle 0 10 11 10 11,
    mkCandle 1 10 10 5 9,
    mkCandle 2 9 (19/2) 6 9,
    mkCandle 3 6 6 4 (9/2),
    mkCandle 3 (9/2) 5 (7/2) 5,
    mkCandle 5 5 8 5 (15/2),
    mkCandle 6 (15/2) (39/5) 7 (36/5),
    mkCandle 7 (36/5) 9 (36/5) 9 ]

/-- Tiny batch for the displacement witness: one candle of range 3. -/
def dispDf : List Candle := [mkCandle 0 0 3 0 0]

/-- Tiny ATR series for the displacement witness. -/
def dispAtr : List ℚ := [1]

/-! ### Helper lemmas -/

theorem getD_map_range {α : Type} (f : Nat → α) (n i : Nat) (d : α) :
    ((List.range n).map f).getD i d = if i < n then f i else d := by
  by_cases h : i < n
  · simp [List.getD_eq_getElem?_getD, List.getElem?_range h, h]
  · have hle : n ≤ i := Nat.le_of_not_lt h
    rw [List.getD_eq_getElem?_getD, List.getElem?_eq_none (by simpa using hle)]
    simp [h]

theorem getD_nonneg {l : List ℚ} (h : ∀ a ∈ l, 0 ≤ a) (i : Nat) :
    0 ≤ l.getD i 0 := by
  by_cases hi : i < l.length
  · rw [List.getD_eq_getElem?_getD, List.getElem?_eq_getElem hi]
    exact h _ (List.getElem_mem hi)
  · rw [List.getD_eq_getElem?_getD, List.getElem?_eq_none (Nat.le_of_not_lt hi)]
    exact le_refl 0

theorem candleAt_of_ge (df : List Candle) (i : Nat) (h : df.length ≤ i) :
    candleAt df i = default := by
  rw [candleAt, List.getD_eq_getElem?_getD, List.getElem?_eq_none h]
  rfl

theorem candleAt_mem (df : List Candle) (i : Nat) (h : i < df.length) :
    candleAt df i ∈ df := by
  rw [candleAt, List.getD_eq_getElem?_getD, List.getElem?_eq_getElem h]
  exact List.getElem_mem h

theorem is_bearish_at_lt_length (df : List Candle) (i : Nat)
    (h : is_bearish_at df i = true) : i < df.length := by
  by_contra hn
  rw [is_bearish_at, candleAt_of_ge df i (Nat.le_of_not_lt hn)] at h
  simp [default] at h

theorem is_bullish_at_lt_length (df : List Candle) (i : Nat)
    (h : is_bullish_at df i = true) : i < df.length := by
  by_contra hn
  rw [is_bullish_at, candleAt_of_ge df i (Nat.le_of_not_lt hn)] at h
  simp [default] at h

theorem last_index_before_spec (p : Nat → Bool) :
    ∀ b j, last_index_before p b = some j → j < b ∧ p j = true := by
  intro b
  induction b with
  | zero => intro j h; simp [last_index_before] at h
  | succ b ih =>
    intro j h
    unfold last_index_before at h
    split at h
    · cases h
      exact ⟨Nat.lt_succ_self b, by assumption⟩
    · obtain ⟨h1, h2⟩ := ih j h
      exact ⟨Nat.lt_succ_of_lt h1, h2⟩

theorem last_index_before_none_iff (p : Nat → Bool) :
    ∀ b, last_index_before p b = none ↔ ∀ j, j < b → p j = false := by
  intro b
  induction b with
  | zero => simp [last_index_before]
  | succ b ih =>
    unfold last_index_before
    split
    · rename_i hp
      constructor
      · intro h; cases h
      · intro h
        exact absurd (h b (Nat.lt_succ_self b)) (by simp [hp])
    · rename_i hp
      rw [ih]
      constructor
      · intro h j hj
        rcases Nat.lt_succ_iff_lt_or_eq.mp hj with hj' | hj'
        · exact h j hj'
        · subst hj'
          exact Bool.eq_false_iff.mpr hp
      · intro h j hj
        exact h j (Nat.lt_succ_of_lt hj)

theorem last_index_before_isSome_iff (p : Nat → Bool) (b : Nat) :
    (last_index_before p b).isSome = true ↔ ∃ j, j < b ∧ p j = true := by
  constructor
  · intro h
    obtain ⟨j, hj⟩ := Option.isSome_iff_exists.mp h
    obtain ⟨h1, h2⟩ := last_index_before_spec p b j hj
    exact ⟨j, h1, h2⟩
  · intro ⟨j, hj, hp⟩
    cases h : last_index_before p b with
    | some k => rfl
    | none =>
      have := (last_index_before_none_iff p b).mp h j hj
      rw [hp] at this
      cases this

theorem last_index_before_maximal (p : Nat → Bool) :
    ∀ b j, last_index_before p b = some j →
      ∀ k, j < k → k < b → p k = false := by
  intro b
  induction b with
  | zero => intro j h; simp [last_index_before] at h
  | succ b ih =>
    intro j h k hjk hkb
    unfold last_index_before at h
    split at h
    · cases h
      omega
    · rename_i hp
      rcases Nat.lt_succ_iff_lt_or_eq.mp hkb with hk' | hk'
      · exact ih j h k hjk hk'
      · subst hk'
        exact Bool.eq_false_iff.mpr hp

theorem last_index_before_mono (p : Nat → Bool) :
    ∀ b2 b1 j1, b1 ≤ b2 → last_index_before p b1 = some j1 →
      ∃ j2, last_index_before p b2 = some j2 ∧ j1 ≤ j2 := by
  intro b2
  induction b2 with
  | zero =>
    intro b1 j1 hle h1
    have hb1 : b1 = 0 := Nat.le_zero.mp hle
    subst hb1
    simp [last_index_before] at h1
  | succ b2 ih =>
    intro b1 j1 hle h1
    rcases Nat.eq_or_lt_of_le hle with heq | hlt
    · subst heq
      exact ⟨j1, h1, le_refl j1⟩
    · have hle2 : b1 ≤ b2 := Nat.lt_succ_iff.mp hlt
      by_cases hp : p b2 = true
      · refine ⟨b2, ?_, ?_⟩
        · unfold last_index_before
          rw [if_pos hp]
        · have := (last_index_before_spec p b1 j1 h1).1
          omega
      · obtain ⟨j2, h2, hj⟩ := ih b1 j1 hle2 h1
        refine ⟨j2, ?_, hj⟩
        unfold last_index_before
        rw [if_neg hp]
        exact h2

/-! ### C3: the vectorized ATR equals the reference single-pass loop -/

theorem true_range_aux_eq_tr_ref_aux :
    ∀ (l : List Candle) (prev : Candle),
      true_range_aux (some prev.close) l = tr_ref_aux prev l := by
  intro l
  induction l with
  | nil => intro prev; rfl
  | cons c rest ih =>
    intro prev
    simp only [true_range_aux, tr_ref_aux]
    rw [ih c]

theorem true_range_eq_tr_ref (df : List Candle) : true_range df = tr_ref df := by
  cases df with
  | nil => rfl
  | cons c rest =>
    simp only [true_range, true_range_aux, tr_ref]
    rw [true_range_aux_eq_tr_ref_aux]

theorem ewm_aux_eq_atr_ref_aux (α : ℚ) :
    ∀ (l : List ℚ) (y : ℚ), ewm_aux α y l = atr_ref_aux α y l := by
  intro l
  induction l with
  | nil => intro y; rfl
  | cons x xs ih =>
    intro y
    simp only [ewm_aux, atr_ref_aux]
    have h : (1 - α) * y + α * x = y + α * (x - y) := by ring
    rw [h, ih]

/-- C3: for every candle sequence with `high[i] ≥ low[i]`, the ATR computed by
`calculate_atr` (pandas `ewm(alpha=1/period, adjust=False)` over the NaN-skipping
true range) equals the reference seeded single-pass recursion of the spec. -/
theorem calculate_atr_eq_ref (period : Nat) (df : List Candle)
    (_hwf : highs_above_lows df) : calculate_atr period df = atr_ref period df := by
  unfold calculate_atr atr_ref
  rw [true_range_eq_tr_ref]
  cases h : tr_ref df with
  | nil => rfl
  | cons t ts =>
    simp only [ewm_mean]
    rw [ewm_aux_eq_atr_ref_aux]

unseal Rat.add Rat.mul Rat.sub Rat.inv in
/-- Witness for C3 at the concrete eight-candle batch. -/
theorem calculate_atr_eq_ref_witness :
    highs_above_lows demoDf ∧ calculate_atr 14 demoDf = atr_ref 14 demoDf :=
  ⟨by unfold highs_above_lows; decide,
   calculate_atr_eq_ref 14 demoDf (by unfold highs_above_lows; decide)⟩

/-! ### C9: insufficient data returns the empty list -/

/-- C9: a batch shorter than `min_candles` yields the empty list (the source
returns `[]` before the pipeline runs; the embedding is a total function, so no
exception is possible). -/
theorem analyze_short_input_empty (cfg : Config) (df : List Candle)
    (h : df.length < cfg.min_candles) : analyze cfg df = [] := by
  unfold analyze
  rw [if_pos (Or.inr h)]

/-- Witness for C9: eight candles against the default minimum of 200. -/
theorem analyze_short_input_empty_witness :
    demoDf.length < defaultConfig.min_candles ∧ analyze defaultConfig demoDf = [] :=
  ⟨by decide, analyze_short_input_empty defaultConfig demoDf (by decide)⟩

/-! ### C8: raising the multiplier never adds a flagged index -/

/-- C8: with a non-negative ATR series and `k1 ≤ k2`, every index flagged by
`detect_displacement` at multiplier `k2` is also flagged at `k1`. -/
theorem detect_displacement_multiplier_antitone (df : List Candle) (atr : List ℚ)
    (k1 k2 : ℚ) (hatr : ∀ a ∈ atr, 0 ≤ a) (hk : k1 ≤ k2) (i : Nat)
    (h2 : (detect_displacement k2 df atr).getD i false = true) :
    (detect_displacement k1 df atr).getD i false = true := by
  unfold detect_displacement at h2 ⊢
  rw [getD_map_range] at h2 ⊢
  by_cases hi : i < df.length
  · rw [if_pos hi] at h2 ⊢
    have ha : 0 ≤ atr.getD i 0 := getD_nonneg hatr i
    have h2' : k2 * atr.getD i 0 ≤ (candleAt df i).high - (candleAt df i).low :=
      of_decide_eq_true h2
    exact decide_eq_true (le_trans (mul_le_mul_of_nonneg_right hk ha) h2')
  · rw [if_neg hi] at h2
    cases h2

unseal Rat.add Rat.mul Rat.sub Rat.inv in
/-- Witness for C8 on a one-candle batch with ATR 1 and multipliers 1 ≤ 2. -/
theorem detect_displacement_multiplier_antitone_witness :
    (∀ a ∈ dispAtr, (0:ℚ) ≤ a) ∧ (1:ℚ) ≤ 2 ∧
      (detect_displacement 2 dispDf dispAtr).getD 0 false = true ∧
      (detect_displacement 1 dispDf dispAtr).getD 0 false = true :=
  ⟨by decide, by decide, by decide,
   detect_displacement_multiplier_antitone dispDf dispAtr 1 2 (by decide)
     (by decide) 0 (by decide)⟩

/-! ### C7: emitted zones are ordered -/

/-- C7: for well-formed candles, every Order Block emitted by
`identify_order_blocks` satisfies `price_low ≤ price_high`, in both zone
modes. -/
theorem identify_zone_ordered (mode : ZoneMode) (df : List Candle)
    (disp bosB bosS : List Bool) (atr : List ℚ) (shs sls : List SwingPoint)
    (hwf : candles_well_formed df) :
    ∀ ob ∈ identify_order_blocks mode df disp bosB bosS atr shs sls,
      ob.price_low ≤ ob.price_high := by
  intro ob hob
  unfold identify_order_blocks at hob
  rcases List.mem_append.mp hob with h | h
  · obtain ⟨b, _hb, hmk⟩ := List.mem_filterMap.mp h
    unfold mk_bullish_ob at hmk
    split at hmk
    · cases hmk
    · rename_i d hd
      split at hmk
      · cases hmk
      · rename_i o ho
        rw [Option.some.injEq] at hmk
        subst hmk
        have holt : o < df.length :=
          is_bearish_at_lt_length df o (last_index_before_spec _ d o ho).2
        obtain ⟨h1, h2⟩ := hwf _ (candleAt_mem df o holt)
        cases mode with
        | conservative => simp [zone_of]
        | aggressive => simpa [zone_of] using le_trans h1 (le_trans min_le_max h2)
  · obtain ⟨b, _hb, hmk⟩ := List.mem_filterMap.mp h
    unfold mk_bearish_ob at hmk
    split at hmk
    · cases hmk
    · rename_i d hd
      split at hmk
      · cases hmk
      · rename_i o ho
        rw [Option.some.injEq] at hmk
        subst hmk
        have holt : o < df.length :=
          is_bullish_at_lt_length df o (last_index_before_spec _ d o ho).2
        obtain ⟨h1, h2⟩ := hwf _ (candleAt_mem df o holt)
        cases mode with
        | conservative => simp [zone_of]
        | aggressive => simpa [zone_of] using le_trans h1 (le_trans min_le_max h2)

unseal Rat.add Rat.mul Rat.sub Rat.inv in
/-- Witness for C7 at the concrete eight-candle batch, which emits two blocks. -/
theorem identify_zone_ordered_witness :
    candles_well_formed demoDf ∧
      ∀ ob ∈ identify_order_blocks ZoneMode.conservative demoDf
          (detect_displacement 0 demoDf (calculate_atr 14 demoDf))
          ((detect_bos demoDf (swing_highs_list 1 demoDf) (swing_lows_list 1 demoDf)).map Prod.fst)
          ((detect_bos demoDf (swing_highs_list 1 demoDf) (swing_lows_list 1 demoDf)).map Prod.snd)
          (calculate_atr 14 demoDf) (swing_highs_list 1 demoDf) (swing_lows_list 1 demoDf),
        ob.price_low ≤ ob.price_high :=
  ⟨by unfold candles_well_formed; decide,
   identify_zone_ordered _ _ _ _ _ _ _ _ (by unfold candles_well_formed; decide)⟩

/-! ### C5: the mitigation status never regresses -/

theorem status_rank_le_two (s : Status) : status_rank s ≤ 2 := by
  cases s <;> simp [status_rank]

theorem status_rank_le_one_iff (s : Status) :
    status_rank s ≤ 1 ↔ s ≠ Status.invalid := by
  cases s <;> simp [status_rank]

theorem step_ob_rank (ob : OrderBlock) (c : Candle) :
    status_rank ob.status ≤ status_rank (step_ob ob c).1.status := by
  unfold step_ob
  cases ob.direction <;> dsimp only <;> split_ifs <;>
    (try simp_all [status_rank]) <;>
    (try (cases ob.status <;> simp_all [status_rank]))

theorem step_ob_snd (ob : OrderBlock) (c : Candle) :
    (step_ob ob c).2 = invalidated_by ob c := by
  unfold step_ob invalidated_by
  cases hdir : ob.direction <;> dsimp only <;> split_ifs <;> simp_all [hdir]

theorem step_ob_preserves (ob : OrderBlock) (c : Candle) :
    (step_ob ob c).1.direction = ob.direction ∧
    (step_ob ob c).1.price_low = ob.price_low ∧
    (step_ob ob c).1.price_high = ob.price_high ∧
    (step_ob ob c).1.created_ts_ms = ob.created_ts_ms := by
  unfold step_ob
  cases hdir : ob.direction <;> dsimp only <;> split_ifs <;> simp_all [hdir]

theorem step_ob_invalid_fields (ob : OrderBlock) (c : Candle)
    (h : (step_ob ob c).2 = true) :
    (step_ob ob c).1.status = Status.invalid ∧
    (step_ob ob c).1.valid_to_ts_ms = some c.ts := by
  unfold step_ob at h ⊢
  cases hdir : ob.direction <;> dsimp only at h ⊢ <;> split_ifs at h ⊢ <;>
    simp_all [hdir]

theorem step_ob_no_stop_fields (ob : OrderBlock) (c : Candle)
    (h : (step_ob ob c).2 = false) :
    (step_ob ob c).1.valid_to_ts_ms = ob.valid_to_ts_ms ∧
    ((step_ob ob c).1.status = ob.status ∨
      ((step_ob ob c).1.status = Status.touched ∧ ob.status = Status.fresh)) := by
  unfold step_ob at h ⊢
  cases hdir : ob.direction <;> dsimp only at h ⊢ <;> split_ifs at h ⊢ <;>
    simp_all [hdir]

/-- C5: along the mitigation replay of any block, the status sequence is
non-decreasing in the rank order `fresh < touched < invalid`, and for a block
that does not start invalid the trace contains `invalid` at most once — with
monotonicity this makes `invalid` terminal: the scan stops at the
invalidating candle. -/
theorem status_trace_monotone (ob : OrderBlock) (cs : List Candle) :
    List.Chain' (fun a b => status_rank a ≤ status_rank b)
      (ob.status :: status_trace ob cs) ∧
    (status_rank ob.status ≤ 1 →
      (status_trace ob cs).count Status.invalid ≤ 1) := by
  induction cs generalizing ob with
  | nil => exact ⟨List.chain'_singleton _, fun _ => by simp [status_trace]⟩
  | cons c rest ih =>
    constructor
    · unfold status_trace
      dsimp only
      by_cases hstop : (step_ob ob c).2 = true
      · rw [if_pos hstop]
        exact List.chain'_pair.mpr (step_ob_rank ob c)
      · rw [if_neg hstop]
        rw [List.chain'_cons]
        exact ⟨step_ob_rank ob c, (ih (step_ob ob c).1).1⟩
    · intro hrank
      unfold status_trace
      dsimp only
      by_cases hstop : (step_ob ob c).2 = true
      · rw [if_pos hstop]
        simp only [List.count_cons, List.count_nil]
        split <;> simp
      · rw [if_neg hstop]
        have hsnotinv : ob.status ≠ Status.invalid :=
          (status_rank_le_one_iff ob.status).mp hrank
        have hs' : (step_ob ob c).1.status ≠ Status.invalid := by
          rcases (step_ob_no_stop_fields ob c (by simpa using hstop)).2 with h | ⟨h, _⟩
          · rw [h]; exact hsnotinv
          · rw [h]; simp
        have hcount := (ih (step_ob ob c).1).2 ((status_rank_le_one_iff _).mpr hs')
        simp [List.count_cons, hs', hcount]

/-- Witness for C5: replaying the demo batch from a fresh default block. -/
theorem status_trace_monotone_witness :
    List.Chain' (fun a b => status_rank a ≤ status_rank b)
      ((default : OrderBlock).status :: status_trace default demoDf) ∧
    (status_trace default demoDf).count Status.invalid ≤ 1 :=
  ⟨(status_trace_monotone default demoDf).1,
   (status_trace_monotone default demoDf).2 (by decide)⟩

/-! ### C6: `valid_to_ts_ms` is non-null iff the status is `invalid` -/

theorem invalidated_by_congr (ob ob' : OrderBlock)
    (hdir : ob'.direction = ob.direction) (hlo : ob'.price_low = ob.price_low)
    (hhi : ob'.price_high = ob.price_high) :
    invalidated_by ob' = invalidated_by ob := by
  funext c
  unfold invalidated_by
  rw [hdir, hlo, hhi]

theorem scan_ob_preserves (ob : OrderBlock) (cs : List Candle) :
    (scan_ob ob cs).direction = ob.direction ∧
    (scan_ob ob cs).price_low = ob.price_low ∧
    (scan_ob ob cs).price_high = ob.price_high ∧
    (scan_ob ob cs).created_ts_ms = ob.created_ts_ms := by
  induction cs generalizing ob with
  | nil => exact ⟨rfl, rfl, rfl, rfl⟩
  | cons c rest ih =>
    unfold scan_ob
    dsimp only
    by_cases hstop : (step_ob ob c).2 = true
    · rw [if_pos hstop]
      exact step_ob_preserves ob c
    · rw [if_neg hstop]
      obtain ⟨h1, h2, h3, h4⟩ := ih (step_ob ob c).1
      obtain ⟨g1, g2, g3, g4⟩ := step_ob_preserves ob c
      exact ⟨h1.trans g1, h2.trans g2, h3.trans g3, h4.trans g4⟩

theorem scan_ob_invalidation (ob : OrderBlock) (cs : List Candle)
    (hst : ob.status ≠ Status.invalid) (hvt : ob.valid_to_ts_ms = none) :
    (∀ c, cs.find? (invalidated_by ob) = some c →
      (scan_ob ob cs).status = Status.invalid ∧
      (scan_ob ob cs).valid_to_ts_ms = some c.ts) ∧
    (cs.find? (invalidated_by ob) = none →
      (scan_ob ob cs).status ≠ Status.invalid ∧
      (scan_ob ob cs).valid_to_ts_ms = none) := by
  induction cs generalizing ob with
  | nil =>
    constructor
    · intro c h
      simp at h
    · intro _
      exact ⟨hst, hvt⟩
  | cons c rest ih =>
    by_cases hi : invalidated_by ob c = true
    · have hstop : (step_ob ob c).2 = true := by rw [step_ob_snd]; exact hi
      have hfind : (c :: rest).find? (invalidated_by ob) = some c :=
        List.find?_cons_of_pos _ hi
      unfold scan_ob
      dsimp only
      rw [if_pos hstop]
      constructor
      · intro c' h
        rw [hfind] at h
        cases h
        exact step_ob_invalid_fields ob c hstop
      · intro h
        rw [hfind] at h
        cases h
    · have hstop : (step_ob ob c).2 = false := by
        rw [step_ob_snd]
        exact Bool.eq_false_iff.mpr hi
      have hpres := step_ob_preserves ob c
      have hcong : invalidated_by (step_ob ob c).1 = invalidated_by ob :=
        invalidated_by_congr _ _ hpres.1 hpres.2.1 hpres.2.2.1
      obtain ⟨hvt', hstatus'⟩ := step_ob_no_stop_fields ob c hstop
      have hst' : (step_ob ob c).1.status ≠ Status.invalid := by
        rcases hstatus' with h | ⟨h, _⟩
        · rw [h]; exact hst
        · rw [h]; simp
      have hvt'' : (step_ob ob c).1.valid_to_ts_ms = none := by rw [hvt', hvt]
      have hfind : (c :: rest).find? (invalidated_by ob) =
          rest.find? (invalidated_by ob) :=
        List.find?_cons_of_neg _ (by simp [hi])
      unfold scan_ob
      dsimp only
      rw [if_neg (by simp [hstop])]
      obtain ⟨ih1, ih2⟩ := ih (step_ob ob c).1 hst' hvt''
      rw [hcong] at ih1 ih2
      constructor
      · intro c' h
        rw [hfind] at h
        exact ih1 c' h
      · intro h
        rw [hfind] at h
        exact ih2 h

theorem identify_status_fresh (mode : ZoneMode) (df : List Candle)
    (disp bosB bosS : List Bool) (atr : List ℚ) (shs sls : List SwingPoint) :
    ∀ ob ∈ identify_order_blocks mode df disp bosB bosS atr shs sls,
      ob.status = Status.fresh ∧ ob.valid_to_ts_ms = none := by
  intro ob hob
  unfold identify_order_blocks at hob
  rcases List.mem_append.mp hob with h | h
  · obtain ⟨b, _hb, hmk⟩ := List.mem_filterMap.mp h
    unfold mk_bullish_ob at hmk
    split at hmk
    · cases hmk
    · split at hmk
      · cases hmk
      · rw [Option.some.injEq] at hmk
        subst hmk
        exact ⟨rfl, rfl⟩
  · obtain ⟨b, _hb, hmk⟩ := List.mem_filterMap.mp h
    unfold mk_bearish_ob at hmk
    split at hmk
    · cases hmk
    · split at hmk
      · cases hmk
      · rw [Option.some.injEq] at hmk
        subst hmk
        exact ⟨rfl, rfl⟩

/-- C6: in the final output of `analyze`, `valid_to_ts_ms` is non-null iff the
status is `invalid`, and an invalidated block's `valid_to_ts_ms` is the
timestamp of the first future candle closing through its zone. -/
theorem analyze_valid_to_iff_invalid (cfg : Config) (df : List Candle)
    (ob : OrderBlock) (hob : ob ∈ analyze cfg df) :
    (ob.valid_to_ts_ms ≠ none ↔ ob.status = Status.invalid) ∧
    (∀ t, ob.valid_to_ts_ms = some t →
      ∃ c, (future_candles df ob.created_ts_ms).find? (invalidated_by ob) = some c ∧
        t = c.ts) := by
  unfold analyze at hob
  split at hob
  · cases hob
  · unfold track_mitigation at hob
    obtain ⟨ob0, hob0, hscan⟩ := List.mem_map.mp hob
    obtain ⟨hfresh, hvt⟩ :=
      identify_status_fresh _ _ _ _ _ _ _ _ ob0 hob0
    have hst : ob0.status ≠ Status.invalid := by rw [hfresh]; simp
    subst hscan
    obtain ⟨hdir, hlo, hhi, hcreated⟩ :=
      scan_ob_preserves ob0 (future_candles df ob0.created_ts_ms)
    have hcong :
        invalidated_by (scan_ob ob0 (future_candles df ob0.created_ts_ms)) =
          invalidated_by ob0 :=
      invalidated_by_congr _ _ hdir hlo hhi
    rw [hcreated, hcong]
    obtain ⟨h1, h2⟩ :=
      scan_ob_invalidation ob0 (future_candles df ob0.created_ts_ms) hst hvt
    cases hf : (future_candles df ob0.created_ts_ms).find? (invalidated_by ob0) with
    | some c =>
      obtain ⟨hs, hv⟩ := h1 c hf
      constructor
      · rw [hv, hs]
        simp
      · intro t ht
        rw [hv] at ht
        cases ht
        exact ⟨c, rfl, rfl⟩
    | none =>
      obtain ⟨hs, hv⟩ := h2 hf
      constructor
      · exact iff_of_false (by simp [hv]) hs
      · intro t ht
        rw [hv] at ht
        cases ht

unseal Rat.add Rat.mul Rat.sub Rat.inv in
/-- Witness for C6 at the first block the demo batch produces. -/
theorem analyze_valid_to_iff_invalid_witness :
    ((analyze smallCfg demoDf).getD 0 default).valid_to_ts_ms ≠ none ↔
      ((analyze smallCfg demoDf).getD 0 default).status = Status.invalid :=
  (analyze_valid_to_iff_invalid smallCfg demoDf _ (by decide)).1

/-! ### C4: emission characterization of `identify_order_blocks` -/

theorem mk_bullish_isSome_iff (mode : ZoneMode) (df : List Candle)
    (disp : List Bool) (atr : List ℚ) (shs : List SwingPoint) (b : Nat) :
    (mk_bullish_ob mode df disp atr shs b).isSome = true ↔
      ∃ d, d < b ∧ disp.getD d false = true ∧
        ∃ o, o < d ∧ is_bearish_at df o = true := by
  unfold mk_bullish_ob
  split
  · rename_i hd
    simp only [Option.isSome_none, Bool.false_eq_true, false_iff]
    rintro ⟨d, hdb, hdisp, -⟩
    have h := (last_index_before_none_iff _ b).mp hd d hdb
    rw [hdisp] at h
    cases h
  · rename_i d hd
    obtain ⟨hdb, hdisp⟩ := last_index_before_spec _ b d hd
    have hdmax := last_index_before_maximal _ b d hd
    split
    · rename_i ho
      simp only [Option.isSome_none, Bool.false_eq_true, false_iff]
      rintro ⟨d', hd'b, hdisp', o, hod', hbear⟩
      have hd'd : d' ≤ d := by
        by_contra hgt
        have h := hdmax d' (Nat.lt_of_not_le hgt) hd'b
        rw [hdisp'] at h
        cases h
      have h := (last_index_before_none_iff _ d).mp ho o (Nat.lt_of_lt_of_le hod' hd'd)
      rw [hbear] at h
      cases h
    · rename_i o ho
      obtain ⟨hod, hbear⟩ := last_index_before_spec _ d o ho
      simp only [Option.isSome_some, true_iff]
      exact ⟨d, hdb, hdisp, o, hod, hbear⟩

theorem mk_bearish_isSome_iff (mode : ZoneMode) (df : List Candle)
    (disp : List Bool) (atr : List ℚ) (sls : List SwingPoint) (b : Nat) :
    (mk_bearish_ob mode df disp atr sls b).isSome = true ↔
      ∃ d, d < b ∧ disp.getD d false = true ∧
        ∃ o, o < d ∧ is_bullish_at df o = true := by
  unfold mk_bearish_ob
  split
  · rename_i hd
    simp only [Option.isSome_none, Bool.false_eq_true, false_iff]
    rintro ⟨d, hdb, hdisp, -⟩
    have h := (last_index_before_none_iff _ b).mp hd d hdb
    rw [hdisp] at h
    cases h
  · rename_i d hd
    obtain ⟨hdb, hdisp⟩ := last_index_before_spec _ b d hd
    have hdmax := last_index_before_maximal _ b d hd
    split
    · rename_i ho
      simp only [Option.isSome_none, Bool.false_eq_true, false_iff]
      rintro ⟨d', hd'b, hdisp', o, hod', hbull⟩
      have hd'd : d' ≤ d := by
        by_contra hgt
        have h := hdmax d' (Nat.lt_of_not_le hgt) hd'b
        rw [hdisp'] at h
        cases h
      have h := (last_index_before_none_iff _ d).mp ho o (Nat.lt_of_lt_of_le hod' hd'd)
      rw [hbull] at h
      cases h
    · rename_i o ho
      obtain ⟨hod, hbull⟩ := last_index_before_spec _ d o ho
      simp only [Option.isSome_some, true_iff]
      exact ⟨d, hdb, hdisp, o, hod, hbull⟩

theorem mk_bullish_fields (mode : ZoneMode) (df : List Candle) (disp : List Bool)
    (atr : List ℚ) (shs : List SwingPoint) (b : Nat) (ob : OrderBlock)
    (hmk : mk_bullish_ob mode df disp atr shs b = some ob) :
    ∃ d o, d < b ∧ disp.getD d false = true ∧
      (∀ k, d < k → k < b → disp.getD k false = false) ∧
      o < d ∧ is_bearish_at df o = true ∧
      (∀ k, o < k → k < d → is_bearish_at df k = false) ∧
      ob.created_ts_ms = (candleAt df o).ts ∧
      ob.displacement_range = (candleAt df d).high - (candleAt df d).low := by
  unfold mk_bullish_ob at hmk
  split at hmk
  · cases hmk
  · rename_i d hd
    split at hmk
    · cases hmk
    · rename_i o ho
      rw [Option.some.injEq] at hmk
      subst hmk
      obtain ⟨hdb, hdisp⟩ := last_index_before_spec _ b d hd
      obtain ⟨hod, hbear⟩ := last_index_before_spec _ d o ho
      exact ⟨d, o, hdb, hdisp, last_index_before_maximal _ b d hd, hod, hbear,
        last_index_before_maximal _ d o ho, rfl, rfl⟩

theorem mk_bearish_fields (mode : ZoneMode) (df : List Candle) (disp : List Bool)
    (atr : List ℚ) (sls : List SwingPoint) (b : Nat) (ob : OrderBlock)
    (hmk : mk_bearish_ob mode df disp atr sls b = some ob) :
    ∃ d o, d < b ∧ disp.getD d false = true ∧
      (∀ k, d < k → k < b → disp.getD k false = false) ∧
      o < d ∧ is_bullish_at df o = true ∧
      (∀ k, o < k → k < d → is_bullish_at df k = false) ∧
      ob.created_ts_ms = (candleAt df o).ts ∧
      ob.displacement_range = (candleAt df d).high - (candleAt df d).low := by
  unfold mk_bearish_ob at hmk
  split at hmk
  · cases hmk
  · rename_i d hd
    split at hmk
    · cases hmk
    · rename_i o ho
      rw [Option.some.injEq] at hmk
      subst hmk
      obtain ⟨hdb, hdisp⟩ := last_index_before_spec _ b d hd
      obtain ⟨hod, hbull⟩ := last_index_before_spec _ d o ho
      exact ⟨d, o, hdb, hdisp, last_index_before_maximal _ b d hd, hod, hbull,
        last_index_before_maximal _ d o ho, rfl, rfl⟩

theorem mk_bullish_mem_identify (mode : ZoneMode) (df : List Candle)
    (disp bosB bosS : List Bool) (atr : List ℚ) (shs sls : List SwingPoint)
    (b : Nat) (ob : OrderBlock) (hb : b < df.length)
    (hflag : bosB.getD b false = true)
    (hmk : mk_bullish_ob mode df disp atr shs b = some ob) :
    ob ∈ identify_order_blocks mode df disp bosB bosS atr shs sls := by
  unfold identify_order_blocks
  refine List.mem_append.mpr (Or.inl ?_)
  exact List.mem_filterMap.mpr
    ⟨b, List.mem_filter.mpr ⟨List.mem_range.mpr hb, hflag⟩, hmk⟩

theorem mk_bearish_mem_identify (mode : ZoneMode) (df : List Candle)
    (disp bosB bosS : List Bool) (atr : List ℚ) (shs sls : List SwingPoint)
    (b : Nat) (ob : OrderBlock) (hb : b < df.length)
    (hflag : bosS.getD b false = true)
    (hmk : mk_bearish_ob mode df disp atr sls b = some ob) :
    ob ∈ identify_order_blocks mode df disp bosB bosS atr shs sls := by
  unfold identify_order_blocks
  refine List.mem_append.mpr (Or.inr ?_)
  exact List.mem_filterMap.mpr
    ⟨b, List.mem_filter.mpr ⟨List.mem_range.mpr hb, hflag⟩, hmk⟩

/-- C4: for a bullish BOS index `b`, a bullish block is emitted iff some
displacement index `d < b` has a bearish candle strictly before it; the
emitted block uses the greatest displacement index below `b`, the greatest
bearish origin below that, `created_ts_ms = timestamp[o]` and
`displacement_range = high[d] - low[d]`; mirror statement for a bearish BOS
with a bullish origin. -/
theorem identify_emission_characterization (mode : ZoneMode) (df : List Candle)
    (disp bosB bosS : List Bool) (atr : List ℚ) (shs sls : List SwingPoint)
    (b : Nat) (hb : b < df.length) :
    (bosB.getD b false = true →
      ((mk_bullish_ob mode df disp atr shs b).isSome = true ↔
        ∃ d, d < b ∧ disp.getD d false = true ∧
          ∃ o, o < d ∧ is_bearish_at df o = true) ∧
      ∀ ob, mk_bullish_ob mode df disp atr shs b = some ob →
        ob ∈ identify_order_blocks mode df disp bosB bosS atr shs sls ∧
        ∃ d o, d < b ∧ disp.getD d false = true ∧
          (∀ k, d < k → k < b → disp.getD k false = false) ∧
          o < d ∧ is_bearish_at df o = true ∧
          (∀ k, o < k → k < d → is_bearish_at df k = false) ∧
          ob.created_ts_ms = (candleAt df o).ts ∧
          ob.displacement_range = (candleAt df d).high - (candleAt df d).low) ∧
    (bosS.getD b false = true →
      ((mk_bearish_ob mode df disp atr sls b).isSome = true ↔
        ∃ d, d < b ∧ disp.getD d false = true ∧
          ∃ o, o < d ∧ is_bullish_at df o = true) ∧
      ∀ ob, mk_bearish_ob mode df disp atr sls b = some ob →
        ob ∈ identify_order_blocks mode df disp bosB bosS atr shs sls ∧
        ∃ d o, d < b ∧ disp.getD d false = true ∧
          (∀ k, d < k → k < b → disp.getD k false = false) ∧
          o < d ∧ is_bullish_at df o = true ∧
          (∀ k, o < k → k < d → is_bullish_at df k = false) ∧
          ob.created_ts_ms = (candleAt df o).ts ∧
          ob.displacement_range = (candleAt df d).high - (candleAt df d).low) :=
  ⟨fun hflag =>
    ⟨mk_bullish_isSome_iff mode df disp atr shs b,
     fun ob hmk =>
      ⟨mk_bullish_mem_identify mode df disp bosB bosS atr shs sls b ob hb hflag hmk,
       mk_bullish_fields mode df disp atr shs b ob hmk⟩⟩,
   fun hflag =>
    ⟨mk_bearish_isSome_iff mode df disp atr sls b,
     fun ob hmk =>
      ⟨mk_bearish_mem_identify mode df disp bosB bosS atr shs sls b ob hb hflag hmk,
       mk_bearish_fields mode df disp atr sls b ob hmk⟩⟩⟩

unseal Rat.add Rat.mul Rat.sub Rat.inv in
/-- Witness for C4 at the bullish BOS of the demo batch (index 7). -/
theorem identify_emission_characterization_witness :
    (7 : Nat) < demoDf.length ∧
    ((detect_bos demoDf (swing_highs_list 1 demoDf) (swing_lows_list 1 demoDf)).map
        Prod.fst).getD 7 false = true ∧
    (((mk_bullish_ob ZoneMode.conservative demoDf
          (detect_displacement 0 demoDf (calculate_atr 14 demoDf))
          (calculate_atr 14 demoDf) (swing_highs_list 1 demoDf) 7).isSome = true ↔
        ∃ d, d < 7 ∧
          (detect_displacement 0 demoDf (calculate_atr 14 demoDf)).getD d false = true ∧
          ∃ o, o < d ∧ is_bearish_at demoDf o = true) ∧
      ∀ ob, mk_bullish_ob ZoneMode.conservative demoDf
          (detect_displacement 0 demoDf (calculate_atr 14 demoDf))
          (calculate_atr 14 demoDf) (swing_highs_list 1 demoDf) 7 = some ob →
        ob ∈ identify_order_blocks ZoneMode.conservative demoDf
          (detect_displacement 0 demoDf (calculate_atr 14 demoDf))
          ((detect_bos demoDf (swing_highs_list 1 demoDf) (swing_lows_list 1 demoDf)).map
            Prod.fst)
          ((detect_bos demoDf (swing_highs_list 1 demoDf) (swing_lows_list 1 demoDf)).map
            Prod.snd)
          (calculate_atr 14 demoDf) (swing_highs_list 1 demoDf)
          (swing_lows_list 1 demoDf) ∧
        ∃ d o, d < 7 ∧
          (detect_displacement 0 demoDf (calculate_atr 14 demoDf)).getD d false = true ∧
          (∀ k, d < k → k < 7 →
            (detect_displacement 0 demoDf (calculate_atr 14 demoDf)).getD k false = false) ∧
          o < d ∧ is_bearish_at demoDf o = true ∧
          (∀ k, o < k → k < d → is_bearish_at demoDf k = false) ∧
          ob.created_ts_ms = (candleAt demoDf o).ts ∧
          ob.displacement_range = (candleAt demoDf d).high - (candleAt demoDf d).low) :=
  ⟨by decide, by decide,
   (identify_emission_characterization ZoneMode.conservative demoDf
      (detect_displacement 0 demoDf (calculate_atr 14 demoDf))
      ((detect_bos demoDf (swing_highs_list 1 demoDf) (swing_lows_list 1 demoDf)).map
        Prod.fst)
      ((detect_bos demoDf (swing_highs_list 1 demoDf) (swing_lows_list 1 demoDf)).map
        Prod.snd)
      (calculate_atr 14 demoDf) (swing_highs_list 1 demoDf) (swing_lows_list 1 demoDf)
      7 (by decide)).1 (by decide)⟩

/-! ### C1: output ordering by `created_ts_ms` -/

theorem ts_mono_candleAt (df : List Candle) (hts : ts_strict_mono df)
    {i j : Nat} (hij : i ≤ j) (hj : j < df.length) :
    (candleAt df i).ts ≤ (candleAt df j).ts := by
  rcases Nat.eq_or_lt_of_le hij with rfl | hlt
  · exact le_refl _
  · have hi : i < df.length := lt_trans hlt hj
    have hp : List.Pairwise (fun a b : Candle => a.ts < b.ts) df := by
      haveI : IsTrans Candle (fun a b : Candle => a.ts < b.ts) :=
        ⟨fun a b c h1 h2 => lt_trans h1 h2⟩
      exact List.chain'_iff_pairwise.mp hts
    have hget := List.pairwise_iff_getElem.mp hp i j hi hj hlt
    rw [candleAt, candleAt, List.getD_eq_getElem?_getD, List.getD_eq_getElem?_getD,
      List.getElem?_eq_getElem hi, List.getElem?_eq_getElem hj]
    exact le_of_lt hget

theorem mk_bullish_direction (mode : ZoneMode) (df : List Candle)
    (disp : List Bool) (atr : List ℚ) (shs : List SwingPoint) (b : Nat)
    (ob : OrderBlock) (hmk : mk_bullish_ob mode df disp atr shs b = some ob) :
    ob.direction = Direction.bullish := by
  unfold mk_bullish_ob at hmk
  split at hmk
  · cases hmk
  · split at hmk
    · cases hmk
    · rw [Option.some.injEq] at hmk
      subst hmk
      rfl

theorem mk_bearish_direction (mode : ZoneMode) (df : List Candle)
    (disp : List Bool) (atr : List ℚ) (sls : List SwingPoint) (b : Nat)
    (ob : OrderBlock) (hmk : mk_bearish_ob mode df disp atr sls b = some ob) :
    ob.direction = Direction.bearish := by
  unfold mk_bearish_ob at hmk
  split at hmk
  · cases hmk
  · split at hmk
    · cases hmk
    · rw [Option.some.injEq] at hmk
      subst hmk
      rfl

theorem mk_bullish_created_mono (mode : ZoneMode) (df : List Candle)
    (disp : List Bool) (atr : List ℚ) (shs : List SwingPoint)
    (hts : ts_strict_mono df) {b1 b2 : Nat} {ob1 ob2 : OrderBlock}
    (hb : b1 ≤ b2) (h1 : mk_bullish_ob mode df disp atr shs b1 = some ob1)
    (h2 : mk_bullish_ob mode df disp atr shs b2 = some ob2) :
    ob1.created_ts_ms ≤ ob2.created_ts_ms := by
  unfold mk_bullish_ob at h1 h2
  split at h1
  · cases h1
  · rename_i d1 hd1
    split at h1
    · cases h1
    · rename_i o1 ho1
      rw [Option.some.injEq] at h1
      subst h1
      split at h2
      · cases h2
      · rename_i d2 hd2
        split at h2
        · cases h2
        · rename_i o2 ho2
          rw [Option.some.injEq] at h2
          subst h2
          obtain ⟨d2', hd2', hdle⟩ := last_index_before_mono _ b2 b1 d1 hb hd1
          rw [hd2] at hd2'
          injection hd2' with hdeq
          subst hdeq
          obtain ⟨o2', ho2', hole⟩ := last_index_before_mono _ d2 d1 o1 hdle ho1
          rw [ho2] at ho2'
          injection ho2' with hoeq
          subst hoeq
          have hbound : o2 < df.length :=
            is_bearish_at_lt_length df o2 (last_index_before_spec _ d2 o2 ho2).2
          dsimp only
          exact ts_mono_candleAt df hts hole hbound

theorem mk_bearish_created_mono (mode : ZoneMode) (df : List Candle)
    (disp : List Bool) (atr : List ℚ) (sls : List SwingPoint)
    (hts : ts_strict_mono df) {b1 b2 : Nat} {ob1 ob2 : OrderBlock}
    (hb : b1 ≤ b2) (h1 : mk_bearish_ob mode df disp atr sls b1 = some ob1)
    (h2 : mk_bearish_ob mode df disp atr sls b2 = some ob2) :
    ob1.created_ts_ms ≤ ob2.created_ts_ms := by
  unfold mk_bearish_ob at h1 h2
  split at h1
  · cases h1
  · rename_i d1 hd1
    split at h1
    · cases h1
    · rename_i o1 ho1
      rw [Option.some.injEq] at h1
      subst h1
      split at h2
      · cases h2
      · rename_i d2 hd2
        split at h2
        · cases h2
        · rename_i o2 ho2
          rw [Option.some.injEq] at h2
          subst h2
          obtain ⟨d2', hd2', hdle⟩ := last_index_before_mono _ b2 b1 d1 hb hd1
          rw [hd2] at hd2'
          injection hd2' with hdeq
          subst hdeq
          obtain ⟨o2', ho2', hole⟩ := last_index_before_mono _ d2 d1 o1 hdle ho1
          rw [ho2] at ho2'
          injection ho2' with hoeq
          subst hoeq
          have hbound : o2 < df.length :=
            is_bullish_at_lt_length df o2 (last_index_before_spec _ d2 o2 ho2).2
          dsimp only
          exact ts_mono_candleAt df hts hole hbound

theorem filterMap_mk_bullish_pairwise (mode : ZoneMode) (df : List Candle)
    (disp bosB : List Bool) (atr : List ℚ) (shs : List SwingPoint)
    (hts : ts_strict_mono df) :
    List.Pairwise (fun a b : OrderBlock => a.created_ts_ms ≤ b.created_ts_ms)
      (((List.range df.length).filter (fun i => bosB.getD i false)).filterMap
        (mk_bullish_ob mode df disp atr shs)) := by
  refine List.pairwise_filterMap.mpr ?_
  have hpw : List.Pairwise (· < ·)
      ((List.range df.length).filter (fun i => bosB.getD i false)) :=
    (List.pairwise_lt_range df.length).filter _
  refine hpw.imp ?_
  intro i j hij ob1 h1 ob2 h2
  exact mk_bullish_created_mono mode df disp atr shs hts (le_of_lt hij)
    (Option.mem_def.mp h1) (Option.mem_def.mp h2)

theorem filterMap_mk_bearish_pairwise (mode : ZoneMode) (df : List Candle)
    (disp bosS : List Bool) (atr : List ℚ) (sls : List SwingPoint)
    (hts : ts_strict_mono df) :
    List.Pairwise (fun a b : OrderBlock => a.created_ts_ms ≤ b.created_ts_ms)
      (((List.range df.length).filter (fun i => bosS.getD i false)).filterMap
        (mk_bearish_ob mode df disp atr sls)) := by
  refine List.pairwise_filterMap.mpr ?_
  have hpw : List.Pairwise (· < ·)
      ((List.range df.length).filter (fun i => bosS.getD i false)) :=
    (List.pairwise_lt_range df.length).filter _
  refine hpw.imp ?_
  intro i j hij ob1 h1 ob2 h2
  exact mk_bearish_created_mono mode df disp atr sls hts (le_of_lt hij)
    (Option.mem_def.mp h1) (Option.mem_def.mp h2)

theorem track_filter_bullish_sorted (mode : ZoneMode) (df : List Candle)
    (disp bosB bosS : List Bool) (atr : List ℚ) (shs sls : List SwingPoint)
    (hts : ts_strict_mono df) :
    sorted_by_created ((track_mitigation
        (identify_order_blocks mode df disp bosB bosS atr shs sls) df).filter
      (fun ob => decide (ob.direction = Direction.bullish))) := by
  unfold identify_order_blocks track_mitigation
  rw [List.map_append, List.filter_append]
  have hbear : ((((List.range df.length).filter (fun i => bosS.getD i false)).filterMap
      (mk_bearish_ob mode df disp atr sls)).map
        (fun ob => scan_ob ob (future_candles df ob.created_ts_ms))).filter
        (fun ob => decide (ob.direction = Direction.bullish)) = [] := by
    rw [List.filter_eq_nil_iff]
    intro ob hob
    obtain ⟨ob0, hob0, hscan⟩ := List.mem_map.mp hob
    obtain ⟨b, _, hmk⟩ := List.mem_filterMap.mp hob0
    have hdir0 : ob0.direction = Direction.bearish :=
      mk_bearish_direction mode df disp atr sls b ob0 hmk
    rw [← hscan]
    simp [(scan_ob_preserves ob0 (future_candles df ob0.created_ts_ms)).1, hdir0]
  have hbull : ((((List.range df.length).filter (fun i => bosB.getD i false)).filterMap
      (mk_bullish_ob mode df disp atr shs)).map
        (fun ob => scan_ob ob (future_candles df ob.created_ts_ms))).filter
        (fun ob => decide (ob.direction = Direction.bullish)) =
      (((List.range df.length).filter (fun i => bosB.getD i false)).filterMap
        (mk_bullish_ob mode df disp atr shs)).map
        (fun ob => scan_ob ob (future_candles df ob.created_ts_ms)) := by
    rw [List.filter_eq_self]
    intro ob hob
    obtain ⟨ob0, hob0, hscan⟩ := List.mem_map.mp hob
    obtain ⟨b, _, hmk⟩ := List.mem_filterMap.mp hob0
    have hdir0 : ob0.direction = Direction.bullish :=
      mk_bullish_direction mode df disp atr shs b ob0 hmk
    rw [← hscan]
    simp [(scan_ob_preserves ob0 (future_candles df ob0.created_ts_ms)).1, hdir0]
  rw [hbear, hbull, List.append_nil]
  unfold sorted_by_created
  rw [List.chain'_map]
  have hch := (filterMap_mk_bullish_pairwise mode df disp bosB atr shs hts).chain'
  refine hch.imp ?_
  intro a b h
  rw [(scan_ob_preserves a (future_candles df a.created_ts_ms)).2.2.2,
    (scan_ob_preserves b (future_candles df b.created_ts_ms)).2.2.2]
  exact h

theorem track_filter_bearish_sorted (mode : ZoneMode) (df : List Candle)
    (disp bosB bosS : List Bool) (atr : List ℚ) (shs sls : List SwingPoint)
    (hts : ts_strict_mono df) :
    sorted_by_created ((track_mitigation
        (identify_order_blocks mode df disp bosB bosS atr shs sls) df).filter
      (fun ob => decide (ob.direction = Direction.bearish))) := by
  unfold identify_order_blocks track_mitigation
  rw [List.map_append, List.filter_append]
  have hbull : ((((List.range df.length).filter (fun i => bosB.getD i false)).filterMap
      (mk_bullish_ob mode df disp atr shs)).map
        (fun ob => scan_ob ob (future_candles df ob.created_ts_ms))).filter
        (fun ob => decide (ob.direction = Direction.bearish)) = [] := by
    rw [List.filter_eq_nil_iff]
    intro ob hob
    obtain ⟨ob0, hob0, hscan⟩ := List.mem_map.mp hob
    obtain ⟨b, _, hmk⟩ := List.mem_filterMap.mp hob0
    have hdir0 : ob0.direction = Direction.bullish :=
      mk_bullish_direction mode df disp atr shs b ob0 hmk
    rw [← hscan]
    simp [(scan_ob_preserves ob0 (future_candles df ob0.created_ts_ms)).1, hdir0]
  have hbear : ((((List.range df.length).filter (fun i => bosS.getD i false)).filterMap
      (mk_bearish_ob mode df disp atr sls)).map
        (fun ob => scan_ob ob (future_candles df ob.created_ts_ms))).filter
        (fun ob => decide (ob.direction = Direction.bearish)) =
      (((List.range df.length).filter (fun i => bosS.getD i false)).filterMap
        (mk_bearish_ob mode df disp atr sls)).map
        (fun ob => scan_ob ob (future_candles df ob.created_ts_ms)) := by
    rw [List.filter_eq_self]
    intro ob hob
    obtain ⟨ob0, hob0, hscan⟩ := List.mem_map.mp hob
    obtain ⟨b, _, hmk⟩ := List.mem_filterMap.mp hob0
    have hdir0 : ob0.direction = Direction.bearish :=
      mk_bearish_direction mode df disp atr sls b ob0 hmk
    rw [← hscan]
    simp [(scan_ob_preserves ob0 (future_candles df ob0.created_ts_ms)).1, hdir0]
  rw [hbull, hbear, List.nil_append]
  unfold sorted_by_created
  rw [List.chain'_map]
  have hch := (filterMap_mk_bearish_pairwise mode df disp bosS atr sls hts).chain'
  refine hch.imp ?_
  intro a b h
  rw [(scan_ob_preserves a (future_candles df a.created_ts_ms)).2.2.2,
    (scan_ob_preserves b (future_candles df b.created_ts_ms)).2.2.2]
  exact h

theorem ts_strict_mono_demoDf : ts_strict_mono demoDf := by
  unfold ts_strict_mono demoDf mkCandle
  simp only [List.chain'_cons, List.chain'_singleton]
  decide

unseal Rat.add Rat.mul Rat.sub Rat.inv in
/-- C1 counterexample: the demo batch yields one bullish block (created at
timestamp 3) followed by one bearish block (created at timestamp 0), so the
output of `analyze` is not globally ordered by `created_ts_ms`. -/
theorem analyze_output_not_sorted_cex :
    (analyze smallCfg demoDf).map OrderBlock.created_ts_ms = [3, 0] ∧
    (analyze smallCfg demoDf).map OrderBlock.direction =
      [Direction.bullish, Direction.bearish] ∧
    ¬ sorted_by_created (analyze smallCfg demoDf) := by
  have hmap : (analyze smallCfg demoDf).map OrderBlock.created_ts_ms = [3, 0] := by
    decide
  refine ⟨hmap, by decide, ?_⟩
  intro hsort
  unfold sorted_by_created at hsort
  have h2 : List.Chain' (fun a b : Int => a ≤ b) [3, 0] := by
    rw [← hmap]
    exact (List.chain'_map _).mpr hsort
  have h3 := List.chain'_pair.mp h2
  omega

/-- C1 amended: for strictly increasing timestamps, the output of `analyze`
is ordered by `created_ts_ms` ascending within each direction group (all
bullish blocks are emitted first, then all bearish blocks); the whole list is
not globally sorted when both directions occur. -/
theorem analyze_sorted_within_direction (cfg : Config) (df : List Candle)
    (hts : ts_strict_mono df) :
    sorted_by_created ((analyze cfg df).filter
      (fun ob => decide (ob.direction = Direction.bullish))) ∧
    sorted_by_created ((analyze cfg df).filter
      (fun ob => decide (ob.direction = Direction.bearish))) := by
  unfold analyze
  split
  · constructor <;> simp [sorted_by_created]
  · exact ⟨track_filter_bullish_sorted _ _ _ _ _ _ _ _ hts,
      track_filter_bearish_sorted _ _ _ _ _ _ _ _ hts⟩

unseal Rat.add Rat.mul Rat.sub Rat.inv in
/-- Witness for the amended C1 at the demo batch. -/
theorem analyze_sorted_within_direction_witness :
    ts_strict_mono demoDf ∧
    sorted_by_created ((analyze smallCfg demoDf).filter
      (fun ob => decide (ob.direction = Direction.bullish))) ∧
    sorted_by_created ((analyze smallCfg demoDf).filter
      (fun ob => decide (ob.direction = Direction.bearish))) :=
  ⟨ts_strict_mono_demoDf,
   analyze_sorted_within_direction smallCfg demoDf ts_strict_mono_demoDf⟩

/-! ### C2: malformed input is not validated -/

theorem not_ts_strict_mono_dupDf : ¬ ts_strict_mono dupDf := by
  unfold ts_strict_mono dupDf mkCandle
  simp only [List.chain'_cons, List.chain'_singleton]
  decide

unseal Rat.add Rat.mul Rat.sub Rat.inv in
/-- C2 counterexample: `dupDf` has a duplicate timestamp (candles 3 and 4
both carry timestamp 3), yet `analyze` raises nothing and returns two Order
Blocks — the malformed batch is processed, not rejected. -/
theorem analyze_malformed_processed_cex :
    ¬ ts_strict_mono dupDf ∧ (analyze smallCfg dupDf).length = 2 ∧
      analyze smallCfg dupDf ≠ [] :=
  ⟨not_ts_strict_mono_dupDf, by decide, by decide⟩

/-- C2 amended: `analyze` performs no content validation — its only input
check is the emptiness/minimum-length guard, so a batch with non-monotonic or
duplicate timestamps that passes the length check is handed to the normal
pipeline (no error is signalled; the source body has no raise statement). -/
theorem analyze_no_validation (cfg : Config) (df : List Candle)
    (_hmal : ¬ ts_strict_mono df) (hne : df.isEmpty = false)
    (hlen : cfg.min_candles ≤ df.length) :
    analyze cfg df =
      track_mitigation
        (identify_order_blocks cfg.zone_mode df
          (detect_displacement cfg.atr_multiplier df (calculate_atr cfg.atr_period df))
          ((detect_bos df (swing_highs_list cfg.swing_window df)
              (swing_lows_list cfg.swing_window df)).map Prod.fst)
          ((detect_bos df (swing_highs_list cfg.swing_window df)
              (swing_lows_list cfg.swing_window df)).map Prod.snd)
          (calculate_atr cfg.atr_period df)
          (swing_highs_list cfg.swing_window df) (swing_lows_list cfg.swing_window df))
        df := by
  unfold analyze
  have hcond : ¬(df.isEmpty = true ∨ df.length < cfg.min_candles) := by
    rintro (h | h)
    · rw [hne] at h
      cases h
    · omega
  rw [if_neg hcond]

unseal Rat.add Rat.mul Rat.sub Rat.inv in
/-- Witness for the amended C2 at the duplicate-timestamp batch. -/
theorem analyze_no_validation_witness :
    ¬ ts_strict_mono dupDf ∧ dupDf.isEmpty = false ∧
      smallCfg.min_candles ≤ dupDf.length ∧
      analyze smallCfg dupDf =
        track_mitigation
          (identify_order_blocks smallCfg.zone_mode dupDf
            (detect_displacement smallCfg.atr_multiplier dupDf
              (calculate_atr smallCfg.atr_period dupDf))
            ((detect_bos dupDf (swing_highs_list smallCfg.swing_window dupDf)
                (swing_lows_list smallCfg.swing_window dupDf)).map Prod.fst)
            ((detect_bos dupDf (swing_highs_list smallCfg.swing_window dupDf)
                (swing_lows_list smallCfg.swing_window dupDf)).map Prod.snd)
            (calculate_atr smallCfg.atr_period dupDf)
            (swing_highs_list smallCfg.swing_window dupDf)
            (swing_lows_list smallCfg.swing_window dupDf))
          dupDf :=
  ⟨not_ts_strict_mono_dupDf, by decide, by decide,
   analyze_no_validation smallCfg dupDf not_ts_strict_mono_dupDf (by decide) (by decide)⟩

/-! ### C10: every BOS flag has a prior swing point -/

theorem swing_highs_level (w : Nat) (df : List Candle) :
    ∀ s ∈ swing_highs_list w df,
      s.level = (candleAt df s.index).high ∧ s.index < df.length := by
  intro s hs
  obtain ⟨i, hi, hf⟩ := List.mem_filterMap.mp hs
  split at hf
  · rw [Option.some.injEq] at hf
    subst hf
    exact ⟨rfl, List.mem_range.mp hi⟩
  · cases hf

theorem swing_lows_level (w : Nat) (df : List Candle) :
    ∀ s ∈ swing_lows_list w df,
      s.level = (candleAt df s.index).low ∧ s.index < df.length := by
  intro s hs
  obtain ⟨i, hi, hf⟩ := List.mem_filterMap.mp hs
  split at hf
  · rw [Option.some.injEq] at hf
    subst hf
    exact ⟨rfl, List.mem_range.mp hi⟩
  · cases hf

theorem advance_swings_weak (S : List SwingPoint) (i : Nat) :
    ∀ (rh : List SwingPoint) (lh : Option ℚ),
      (∀ v, lh = some v → ∃ m ∈ S, m.index ≤ i ∧ m.level = v) →
      (∀ s ∈ rh, s ∈ S) →
      (∀ v, (advance_swings lh rh i).1 = some v →
        ∃ m ∈ S, m.index ≤ i ∧ m.level = v) ∧
      (∀ s ∈ (advance_swings lh rh i).2, s ∈ S) := by
  intro rh
  induction rh with
  | nil =>
    intro lh hlh _hmem
    constructor
    · intro v hv
      exact hlh v hv
    · intro s hs
      simp [advance_swings] at hs
  | cons s t ih =>
    intro lh hlh hmem
    unfold advance_swings
    by_cases hs : s.index ≤ i
    · rw [if_pos hs]
      refine ih (some s.level) ?_ (fun x hx => hmem x (List.mem_cons_of_mem s hx))
      intro v hv
      injection hv with hv'
      exact ⟨s, hmem s (List.mem_cons_self s t), hs, hv'⟩
    · rw [if_neg hs]
      exact ⟨hlh, hmem⟩

theorem bos_aux_length (df : List Candle) :
    ∀ (ks : List Nat) (lh : Option ℚ) (rh : List SwingPoint) (ll : Option ℚ)
      (rl : List SwingPoint),
      (bos_aux df ks lh rh ll rl).length = ks.length := by
  intro ks
  induction ks with
  | nil => intro lh rh ll rl; rfl
  | cons i is ih =>
    intro lh rh ll rl
    unfold bos_aux
    dsimp only
    rw [List.length_cons, ih]
    rfl

theorem bos_aux_flag_spec (df : List Candle) (S_h S_l : List SwingPoint) :
    ∀ (k a : Nat) (lh : Option ℚ) (rh : List SwingPoint) (ll : Option ℚ)
      (rl : List SwingPoint),
      (∀ v, lh = some v → ∃ m ∈ S_h, m.index < a ∧ m.level = v) →
      (∀ s ∈ rh, s ∈ S_h) →
      (∀ v, ll = some v → ∃ m ∈ S_l, m.index < a ∧ m.level = v) →
      (∀ s ∈ rl, s ∈ S_l) →
      ∀ j, j < k →
        (((bos_aux df (List.range' a k) lh rh ll rl).getD j (false, false)).1 = true →
          ∃ m ∈ S_h, m.index ≤ a + j ∧ m.level < (candleAt df (a + j)).close) ∧
        (((bos_aux df (List.range' a k) lh rh ll rl).getD j (false, false)).2 = true →
          ∃ m ∈ S_l, m.index ≤ a + j ∧ (candleAt df (a + j)).close < m.level) := by
  intro k
  induction k with
  | zero =>
    intro a lh rh ll rl _ _ _ _ j hj
    exact absurd hj (Nat.not_lt_zero j)
  | succ k ih =>
    intro a lh rh ll rl hlh hrh hll hrl j hj
    have hlh' : ∀ v, lh = some v → ∃ m ∈ S_h, m.index ≤ a ∧ m.level = v := by
      intro v hv
      obtain ⟨m, hm, hidx, hlev⟩ := hlh v hv
      exact ⟨m, hm, le_of_lt hidx, hlev⟩
    have hll' : ∀ v, ll = some v → ∃ m ∈ S_l, m.index ≤ a ∧ m.level = v := by
      intro v hv
      obtain ⟨m, hm, hidx, hlev⟩ := hll v hv
      exact ⟨m, hm, le_of_lt hidx, hlev⟩
    obtain ⟨hH1, hH2⟩ := advance_swings_weak S_h a rh lh hlh' hrh
    obtain ⟨hL1, hL2⟩ := advance_swings_weak S_l a rl ll hll' hrl
    rw [List.range'_succ]
    unfold bos_aux
    dsimp only
    cases j with
    | zero =>
      rw [List.getD_cons_zero]
      dsimp only
      constructor
      · intro hflag
        rw [Nat.add_zero]
        split at hflag
        · cases hflag
        · rename_i v hv
          obtain ⟨m, hm, hidx, hlev⟩ := hH1 v hv
          exact ⟨m, hm, hidx, hlev ▸ of_decide_eq_true hflag⟩
      · intro hflag
        rw [Nat.add_zero]
        split at hflag
        · cases hflag
        · rename_i v hv
          obtain ⟨m, hm, hidx, hlev⟩ := hL1 v hv
          exact ⟨m, hm, hidx, hlev ▸ of_decide_eq_true hflag⟩
    | succ j' =>
      rw [List.getD_cons_succ]
      have hH1' : ∀ v, (advance_swings lh rh a).1 = some v →
          ∃ m ∈ S_h, m.index < a + 1 ∧ m.level = v := by
        intro v hv
        obtain ⟨m, hm, hidx, hlev⟩ := hH1 v hv
        exact ⟨m, hm, Nat.lt_succ_of_le hidx, hlev⟩
      have hL1' : ∀ v, (advance_swings ll rl a).1 = some v →
          ∃ m ∈ S_l, m.index < a + 1 ∧ m.level = v := by
        intro v hv
        obtain ⟨m, hm, hidx, hlev⟩ := hL1 v hv
        exact ⟨m, hm, Nat.lt_succ_of_le hidx, hlev⟩
      have := ih (a + 1) (advance_swings lh rh a).1 (advance_swings lh rh a).2
        (advance_swings ll rl a).1 (advance_swings ll rl a).2 hH1' hH2 hL1' hL2
        j' (Nat.lt_of_succ_lt_succ hj)
      have harith : a + 1 + j' = a + (j' + 1) := by omega
      rw [harith] at this
      exact this

/-- C10: for candles with `low ≤ close ≤ high`, every bullish BOS flag at
index `b` has a swing high strictly before `b` (dually a swing low before
every bearish BOS flag); hence the `close[b]` fallback for `bos_level` in
`identify_order_blocks` is unreachable and `bos_level` is always the level of
an actual prior swing point. -/
theorem bos_implies_prior_swing (w : Nat) (df : List Candle) (b : Nat)
    (hwf : closes_in_range df) :
    (bos_bullish_flag w df b = true →
      (∃ s ∈ swing_highs_list w df, s.index < b) ∧
      ∃ s, (swing_highs_list w df).reverse.find?
          (fun s => decide (s.index < b)) = some s ∧
        s ∈ swing_highs_list w df ∧ s.index < b ∧
        ∀ (mode : ZoneMode) (disp : List Bool) (atr : List ℚ) (ob : OrderBlock),
          mk_bullish_ob mode df disp atr (swing_highs_list w df) b = some ob →
          ob.bos_level = s.level) ∧
    (bos_bearish_flag w df b = true →
      (∃ s ∈ swing_lows_list w df, s.index < b) ∧
      ∃ s, (swing_lows_list w df).reverse.find?
          (fun s => decide (s.index < b)) = some s ∧
        s ∈ swing_lows_list w df ∧ s.index < b ∧
        ∀ (mode : ZoneMode) (disp : List Bool) (atr : List ℚ) (ob : OrderBlock),
          mk_bearish_ob mode df disp atr (swing_lows_list w df) b = some ob →
          ob.bos_level = s.level) := by
  have hlen : (bos_aux df (List.range df.length) none (swing_highs_list w df)
      none (swing_lows_list w df)).length = df.length := by
    rw [bos_aux_length, List.length_range]
  constructor
  · intro hflag
    unfold bos_bullish_flag detect_bos at hflag
    have hblen : b < df.length := by
      by_contra hge
      rw [List.getD_eq_getElem?_getD,
        List.getElem?_eq_none (by rw [hlen]; exact Nat.le_of_not_lt hge)] at hflag
      cases hflag
    rw [List.range_eq_range'] at hflag
    have hspec := (bos_aux_flag_spec df (swing_highs_list w df)
      (swing_lows_list w df) df.length 0 none (swing_highs_list w df) none
      (swing_lows_list w df) (by intro v hv; cases hv) (fun s hs => hs)
      (by intro v hv; cases hv) (fun s hs => hs) b hblen).1
    rw [Nat.zero_add] at hspec
    obtain ⟨m, hm, hidx, hlt⟩ := hspec hflag
    have hmlev := (swing_highs_level w df m hm).1
    have hmlt : m.index < b := by
      rcases Nat.eq_or_lt_of_le hidx with heq | hlt'
      · exfalso
        rw [hmlev, heq] at hlt
        have hcb := (hwf (candleAt df b) (candleAt_mem df b hblen)).2
        exact absurd hlt (not_lt_of_le hcb)
      · exact hlt'
    have hfs : ((swing_highs_list w df).reverse.find?
        (fun s => decide (s.index < b))).isSome = true :=
      List.find?_isSome.mpr ⟨m, List.mem_reverse.mpr hm, decide_eq_true hmlt⟩
    obtain ⟨s, hs⟩ := Option.isSome_iff_exists.mp hfs
    have hsmem : s ∈ swing_highs_list w df :=
      List.mem_reverse.mp (List.mem_of_find?_eq_some hs)
    have hps := List.find?_some hs
    have hslt : s.index < b := by simpa using hps
    refine ⟨⟨m, hm, hmlt⟩, s, hs, hsmem, hslt, ?_⟩
    intro mode disp atr ob hmk
    unfold mk_bullish_ob at hmk
    split at hmk
    · cases hmk
    · split at hmk
      · cases hmk
      · rw [Option.some.injEq] at hmk
        subst hmk
        dsimp only
        unfold bos_level_bullish
        rw [hs]
  · intro hflag
    unfold bos_bearish_flag detect_bos at hflag
    have hblen : b < df.length := by
      by_contra hge
      rw [List.getD_eq_getElem?_getD,
        List.getElem?_eq_none (by rw [hlen]; exact Nat.le_of_not_lt hge)] at hflag
      cases hflag
    rw [List.range_eq_range'] at hflag
    have hspec := (bos_aux_flag_spec df (swing_highs_list w df)
      (swing_lows_list w df) df.length 0 none (swing_highs_list w df) none
      (swing_lows_list w df) (by intro v hv; cases hv) (fun s hs => hs)
      (by intro v hv; cases hv) (fun s hs => hs) b hblen).2
    rw [Nat.zero_add] at hspec
    obtain ⟨m, hm, hidx, hlt⟩ := hspec hflag
    have hmlev := (swing_lows_level w df m hm).1
    have hmlt : m.index < b := by
      rcases Nat.eq_or_lt_of_le hidx with heq | hlt'
      · exfalso
        rw [hmlev, heq] at hlt
        have hcb := (hwf (candleAt df b) (candleAt_mem df b hblen)).1
        exact absurd hlt (not_lt_of_le hcb)
      · exact hlt'
    have hfs : ((swing_lows_list w df).reverse.find?
        (fun s => decide (s.index < b))).isSome = true :=
      List.find?_isSome.mpr ⟨m, List.mem_reverse.mpr hm, decide_eq_true hmlt⟩
    obtain ⟨s, hs⟩ := Option.isSome_iff_exists.mp hfs
    have hsmem : s ∈ swing_lows_list w df :=
      List.mem_reverse.mp (List.mem_of_find?_eq_some hs)
    have hps := List.find?_some hs
    have hslt : s.index < b := by simpa using hps
    refine ⟨⟨m, hm, hmlt⟩, s, hs, hsmem, hslt, ?_⟩
    intro mode disp atr ob hmk
    unfold mk_bearish_ob at hmk
    split at hmk
    · cases hmk
    · split at hmk
      · cases hmk
      · rw [Option.some.injEq] at hmk
        subst hmk
        dsimp only
        unfold bos_level_bearish
        rw [hs]

unseal Rat.add Rat.mul Rat.sub Rat.inv in
/-- Witness for C10 at the bullish BOS of the demo batch (index 7). -/
theorem bos_implies_prior_swing_witness :
    closes_in_range demoDf ∧ bos_bullish_flag 1 demoDf 7 = true ∧
      (∃ s ∈ swing_highs_list 1 demoDf, s.index < 7) :=
  ⟨by unfold closes_in_range; decide, by decide,
   ((bos_implies_prior_swing 1 demoDf 7
      (by unfold closes_in_range; decide)).1 (by decide)).1⟩
